import Mathlib

/-!
Verification of the temporal-reference-data framework against its
specification.

The development shallowly embeds the parts of the repository the claims
are about:

* the notification mechanism of
  `migrations/005.create-fby-notification-mechanism.sql`
  (`fby_notification`, `fby_schedule_notification`,
  `fby_get_next_notification`, `fby_pass_notification`,
  `fby_fail_notification`);
* the change-set insert trigger of
  `migrations/006.create-rdf-change-set-relations.sql`;
* the per-entity aggregate functions, the change-log query, the
  projection listing and the DSL validator, which are exercised by the
  repository's tests; their bodies are not part of the sources, so they
  are modelled from the specification (each such definition says so in
  its doc comment).

Timestamps are modelled as `Int`, SQL `NULL` as `Option`, tables as
`List`s of rows in insertion order, and the `SERIAL` id sequences as
explicit arguments.
-/

/-! ## Notification rows (migration 005) -/

/-- The `fby_notification_status` enum from migration 005. -/
inductive NotificationStatus
  | PENDING
  | OK
  deriving DecidableEq, Repr

/-- A row of the `fby_notification` table from migration 005. -/
structure Notification where
  id : Nat
  hook_id : Nat
  projection_id : Nat
  scheduled_for : Int
  attempts : Nat
  status : NotificationStatus
  last_attempted : Option Int
  last_error : Option String
  deriving DecidableEq, Repr

/-- The row shape returned by `fby_get_next_notification`
(`RETURNS TABLE (id, hook_id, attempts)`). -/
structure NextNotification where
  id : Nat
  hook_id : Nat
  attempts : Nat
  deriving DecidableEq, Repr

/-- Whether a row carries the given `(hook_id, projection_id, status)`
triple, the column triple of the unique constraint
`fby_notification_hook_id_projection_id_status_uniq`. -/
def tripleMatch (h p : Nat) (s : NotificationStatus) (n : Notification) :
    Prop :=
  n.hook_id = h ∧ n.projection_id = p ∧ n.status = s

instance (h p : Nat) (s : NotificationStatus) (n : Notification) :
    Decidable (tripleMatch h p s n) := by
  unfold tripleMatch
  exact inferInstance

/-- Whether a row is the PENDING row for hook `h` and projection `p`,
i.e. matches the conflict target of `fby_schedule_notification`'s
insert. -/
abbrev isPendingFor (h p : Nat) (n : Notification) : Prop :=
  tripleMatch h p NotificationStatus.PENDING n

/-- The `ON CONFLICT ... DO UPDATE` arm of `fby_schedule_notification`,
applied row by row: the conflicting `(h, p, PENDING)` row is reset. -/
def scheduleReset (nid : Nat) (now : Int) (h p : Nat) (n : Notification) :
    Notification :=
  if isPendingFor h p n then
    { n with id := nid, scheduled_for := now, attempts := 0,
             last_attempted := none, last_error := none }
  else n

/-- `fby_schedule_notification(p_hook_id, p_projection_id)`:
insert a fresh PENDING row (defaults: `scheduled_for = now()`,
`attempts = 0`, `status = PENDING`), or on conflict with the existing
`(hook_id, projection_id, PENDING)` row update that row, resetting
`id`, `scheduled_for`, `attempts`, `last_attempted` and `last_error`.
`nid` is the value drawn from the id sequence, `now` the clock. -/
def fby_schedule_notification (t : List Notification) (nid : Nat) (now : Int)
    (h p : Nat) : List Notification :=
  if t.any (fun n => decide (isPendingFor h p n)) then
    t.map (scheduleReset nid now h p)
  else
    t ++ [⟨nid, h, p, now, 0, NotificationStatus.PENDING, none, none⟩]

/-- `fby_get_next_notification(p_max_attempts)`: one PENDING row with
`scheduled_for <= now()` and `attempts < p_max_attempts`, returned with
`attempts` reported as `n.attempts + 1`. -/
def fby_get_next_notification (t : List Notification) (now : Int)
    (p_max_attempts : Nat) : Option NextNotification :=
  (t.find? (fun n =>
      decide (n.status = NotificationStatus.PENDING ∧
              n.scheduled_for ≤ now ∧ n.attempts < p_max_attempts))).map
    (fun n => ⟨n.id, n.hook_id, n.attempts + 1⟩)

/-- The update `fby_pass_notification` applies to the row it marks OK. -/
def passUpdate (now : Int) (n : Notification) : Notification :=
  { n with attempts := n.attempts + 1, status := NotificationStatus.OK,
           last_attempted := some now, last_error := none }

/-- The row-by-row form of `fby_pass_notification`'s UPDATE. -/
def passApplyRow (now : Int) (p_id : Nat) (m : Notification) : Notification :=
  if m.id = p_id then passUpdate now m else m

/-- `fby_pass_notification(p_id)`: look up the row's hook, delete every
OK row of that hook, then update the row `p_id` to OK, incrementing
`attempts`, stamping `last_attempted` and clearing `last_error`. -/
def fby_pass_notification (t : List Notification) (now : Int) (p_id : Nat) :
    List Notification :=
  match t.find? (fun n => decide (n.id = p_id)) with
  | none => t
  | some n =>
    (t.filter (fun m =>
        !(decide (m.hook_id = n.hook_id ∧ m.status = NotificationStatus.OK)))).map
      (passApplyRow now p_id)

/-- The update `fby_fail_notification` applies to the failed row. -/
def failUpdate (now sched : Int) (e : String) (n : Notification) :
    Notification :=
  { n with attempts := n.attempts + 1, scheduled_for := sched,
           last_attempted := some now, last_error := some e }

/-- The row-by-row form of `fby_fail_notification`'s UPDATE. -/
def failApplyRow (now sched : Int) (e : String) (p_id : Nat)
    (n : Notification) : Notification :=
  if n.id = p_id then failUpdate now sched e n else n

/-- `fby_fail_notification(p_id, p_scheduled_for, p_error)`: bump
`attempts`, reschedule, stamp `last_attempted`, record the error;
the status is not touched. -/
def fby_fail_notification (t : List Notification) (now sched : Int)
    (p_id : Nat) (e : String) : List Notification :=
  t.map (failApplyRow now sched e p_id)

/-- How many rows of the table carry the given
`(hook_id, projection_id, status)` triple. -/
def statusCount (t : List Notification) (h p : Nat) (s : NotificationStatus) :
    Nat :=
  (t.filter (fun n => decide (tripleMatch h p s n))).length

/-- The uniqueness invariant backing the constraint
`fby_notification_hook_id_projection_id_status_uniq`: no two rows share
a `(hook_id, projection_id, status)` triple. -/
abbrev notifUnique (t : List Notification) : Prop :=
  t.Pairwise (fun a b =>
    ¬(a.hook_id = b.hook_id ∧ a.projection_id = b.projection_id ∧
      a.status = b.status))

/-- Distinctness of the `SERIAL PRIMARY KEY` column. -/
abbrev idsNodup (t : List Notification) : Prop :=
  (t.map (fun n => n.id)).Nodup

/-- Rows with equal primary keys are equal when the id column is nodup. -/
theorem id_injective {t : List Notification} (hids : idsNodup t)
    {a b : Notification} (ha : a ∈ t) (hb : b ∈ t) (h : a.id = b.id) : a = b :=
  List.inj_on_of_nodup_map hids ha hb h

/-- Looking a row up by primary key finds exactly that row. -/
theorem find_by_id {t : List Notification} {n : Notification} {p_id : Nat}
    (hids : idsNodup t) (hmem : n ∈ t) (hid : n.id = p_id) :
    t.find? (fun m => decide (m.id = p_id)) = some n := by
  cases hf : t.find? (fun m => decide (m.id = p_id)) with
  | none =>
    exfalso
    have := List.find?_eq_none.mp hf n hmem
    simp [hid] at this
  | some m =>
    have hm := List.mem_of_find?_eq_some hf
    have hpm : m.id = p_id := by
      have := List.find?_some hf
      rwa [decide_eq_true_eq] at this
    rw [id_injective hids hm hmem (hpm.trans hid.symm)]

/-- Characterisation of a successful `fby_get_next_notification` call:
the reported row comes from a stored PENDING, due, below-cap row, with
the attempts counter reported incremented. -/
theorem get_next_spec (t : List Notification) (now : Int) (maxAttempts : Nat)
    (r : NextNotification)
    (hr : fby_get_next_notification t now maxAttempts = some r) :
    ∃ n ∈ t, n.id = r.id ∧ n.hook_id = r.hook_id ∧
      r.attempts = n.attempts + 1 ∧
      n.status = NotificationStatus.PENDING ∧
      n.scheduled_for ≤ now ∧ n.attempts < maxAttempts := by
  unfold fby_get_next_notification at hr
  cases hf : t.find? (fun n =>
      decide (n.status = NotificationStatus.PENDING ∧
              n.scheduled_for ≤ now ∧ n.attempts < maxAttempts)) with
  | none => rw [hf] at hr; simp at hr
  | some n =>
    rw [hf] at hr
    simp only [Option.map_some'] at hr
    have hmem := List.mem_of_find?_eq_some hf
    have hprop := List.find?_some hf
    rw [decide_eq_true_eq] at hprop
    have hrr : (⟨n.id, n.hook_id, n.attempts + 1⟩ : NextNotification) = r :=
      Option.some.inj hr
    refine ⟨n, hmem, ?_, ?_, ?_, hprop.1, hprop.2.1, hprop.2.2⟩
    · rw [← hrr]
    · rw [← hrr]
    · rw [← hrr]

/-- Claim C10: every row selected by `fby_get_next_notification` is
reported with `attempts` equal to the stored counter plus one, and comes
from a stored PENDING row that is due and below the attempt cap. -/
theorem get_next_notification_reports_attempts_plus_one
    (t : List Notification) (now : Int) (maxAttempts : Nat)
    (r : NextNotification)
    (hr : fby_get_next_notification t now maxAttempts = some r) :
    ∃ n ∈ t, n.id = r.id ∧ n.hook_id = r.hook_id ∧
      r.attempts = n.attempts + 1 ∧
      n.status = NotificationStatus.PENDING ∧
      n.scheduled_for ≤ now ∧ n.attempts < maxAttempts :=
  get_next_spec t now maxAttempts r hr

/-- Witness for C10 at a concrete one-row table. -/
theorem get_next_notification_reports_attempts_plus_one_witness :
    fby_get_next_notification
        [⟨7, 3, 4, 0, 1, NotificationStatus.PENDING, none, none⟩] 5 3 =
      some ⟨7, 3, 2⟩ ∧
    ∃ n ∈ [(⟨7, 3, 4, 0, 1, NotificationStatus.PENDING, none, none⟩ : Notification)],
      n.id = 7 ∧ n.hook_id = 3 ∧ (2 : Nat) = n.attempts + 1 ∧
      n.status = NotificationStatus.PENDING ∧
      n.scheduled_for ≤ 5 ∧ n.attempts < 3 :=
  ⟨by decide,
   get_next_notification_reports_attempts_plus_one
     [⟨7, 3, 4, 0, 1, NotificationStatus.PENDING, none, none⟩] 5 3
     ⟨7, 3, 2⟩ (by decide)⟩

/-- After `fby_fail_notification`, any row carrying the failed id is the
updated row. -/
theorem fail_unique_row (t : List Notification) (now sched : Int)
    (p_id : Nat) (e : String) (n : Notification)
    (hmem : n ∈ t) (hid : n.id = p_id) (hids : idsNodup t) :
    ∀ m ∈ fby_fail_notification t now sched p_id e, m.id = p_id →
      m = failUpdate now sched e n := by
  intro m hm hmid
  unfold fby_fail_notification at hm
  obtain ⟨m0, hm0, hg⟩ := List.mem_map.mp hm
  by_cases h0 : m0.id = p_id
  · rw [id_injective hids hm0 hmem (h0.trans hid.symm)] at hg
    rw [← hg]
    unfold failApplyRow
    rw [if_pos hid]
  · unfold failApplyRow at hg
    rw [if_neg h0] at hg
    rw [hg] at h0
    exact absurd hmid h0

/-- Claim C5: `fby_fail_notification` increments `attempts`, records the
error text, reschedules and leaves the row PENDING; and once the stored
counter reaches `maxAttempts`, `fby_get_next_notification` never returns
that row again. -/
theorem fail_notification_retries_then_poisons
    (t : List Notification) (now sched now2 : Int) (p_id maxAttempts : Nat)
    (e : String) (n : Notification)
    (hmem : n ∈ t) (hid : n.id = p_id) (hids : idsNodup t)
    (hpend : n.status = NotificationStatus.PENDING) :
    failUpdate now sched e n ∈ fby_fail_notification t now sched p_id e ∧
    (failUpdate now sched e n).attempts = n.attempts + 1 ∧
    (failUpdate now sched e n).last_error = some e ∧
    (failUpdate now sched e n).scheduled_for = sched ∧
    (failUpdate now sched e n).status = NotificationStatus.PENDING ∧
    (maxAttempts ≤ n.attempts + 1 →
      ∀ r, fby_get_next_notification (fby_fail_notification t now sched p_id e)
          now2 maxAttempts = some r → r.id ≠ p_id) := by
  refine ⟨?_, rfl, rfl, rfl, hpend, ?_⟩
  · unfold fby_fail_notification
    have hmm := List.mem_map_of_mem (failApplyRow now sched e p_id) hmem
    simp only [failApplyRow, if_pos hid] at hmm
    exact hmm
  · intro hcap r hr hrid
    obtain ⟨m, hm, hmid, _, hatt, _, _, hlt⟩ :=
      get_next_spec _ now2 maxAttempts r hr
    have hmup : m = failUpdate now sched e n :=
      fail_unique_row t now sched p_id e n hmem hid hids m hm (hmid.trans hrid)
    rw [hmup] at hlt
    simp only [failUpdate] at hlt
    omega

/-- Witness for C5: a due PENDING row at one failure below the cap is
poisoned after failing. -/
theorem fail_notification_retries_then_poisons_witness :
    ((⟨7, 3, 4, 0, 2, NotificationStatus.PENDING, none, none⟩ : Notification) ∈
        [(⟨7, 3, 4, 0, 2, NotificationStatus.PENDING, none, none⟩ : Notification)]) ∧
    ((7 : Nat) = 7) ∧
    idsNodup [⟨7, 3, 4, 0, 2, NotificationStatus.PENDING, none, none⟩] ∧
    ((NotificationStatus.PENDING : NotificationStatus) = NotificationStatus.PENDING) ∧
    (failUpdate 1 9 "boom" ⟨7, 3, 4, 0, 2, NotificationStatus.PENDING, none, none⟩ ∈
      fby_fail_notification
        [⟨7, 3, 4, 0, 2, NotificationStatus.PENDING, none, none⟩] 1 9 7 "boom") ∧
    ((3 : Nat) ≤ 2 + 1 →
      ∀ r, fby_get_next_notification
          (fby_fail_notification
            [⟨7, 3, 4, 0, 2, NotificationStatus.PENDING, none, none⟩] 1 9 7 "boom")
          50 3 = some r → r.id ≠ 7) := by
  refine ⟨by decide, by decide, by decide, by decide, ?_, ?_⟩
  · exact (fail_notification_retries_then_poisons
      [⟨7, 3, 4, 0, 2, NotificationStatus.PENDING, none, none⟩] 1 9 50 7 3 "boom"
      ⟨7, 3, 4, 0, 2, NotificationStatus.PENDING, none, none⟩
      (by decide) (by decide) (by decide) (by decide)).1
  · exact (fail_notification_retries_then_poisons
      [⟨7, 3, 4, 0, 2, NotificationStatus.PENDING, none, none⟩] 1 9 50 7 3 "boom"
      ⟨7, 3, 4, 0, 2, NotificationStatus.PENDING, none, none⟩
      (by decide) (by decide) (by decide) (by decide)).2.2.2.2.2

/-- Claim C9: `fby_pass_notification` marks the row OK and also
increments the stored `attempts` counter, stamps `last_attempted` and
clears `last_error`; the successful delivery is counted as an attempt. -/
theorem pass_notification_counts_the_attempt
    (t : List Notification) (now : Int) (p_id : Nat) (n : Notification)
    (hmem : n ∈ t) (hid : n.id = p_id) (hids : idsNodup t)
    (hpend : n.status = NotificationStatus.PENDING) :
    passUpdate now n ∈ fby_pass_notification t now p_id ∧
    (∀ m ∈ fby_pass_notification t now p_id, m.id = p_id → m = passUpdate now n) ∧
    (passUpdate now n).status = NotificationStatus.OK ∧
    (passUpdate now n).attempts = n.attempts + 1 ∧
    (passUpdate now n).last_attempted = some now ∧
    (passUpdate now n).last_error = none := by
  have hfind := find_by_id hids hmem hid
  have hkeep : (!(decide (n.hook_id = n.hook_id ∧
      n.status = NotificationStatus.OK))) = true := by
    simp [hpend]
  refine ⟨?_, ?_, rfl, rfl, rfl, rfl⟩
  · unfold fby_pass_notification
    rw [hfind]
    have hn1 : n ∈ t.filter (fun m =>
        !(decide (m.hook_id = n.hook_id ∧ m.status = NotificationStatus.OK))) :=
      List.mem_filter.mpr ⟨hmem, hkeep⟩
    have hmm := List.mem_map_of_mem (passApplyRow now p_id) hn1
    simp only [passApplyRow, if_pos hid] at hmm
    exact hmm
  · intro m hm hmid
    unfold fby_pass_notification at hm
    rw [hfind] at hm
    obtain ⟨m0, hm0, hg⟩ := List.mem_map.mp hm
    have hm0t : m0 ∈ t := List.mem_of_mem_filter hm0
    by_cases h0 : m0.id = p_id
    · rw [id_injective hids hm0t hmem (h0.trans hid.symm)] at hg
      rw [← hg]
      unfold passApplyRow
      rw [if_pos hid]
    · unfold passApplyRow at hg
      rw [if_neg h0] at hg
      rw [hg] at h0
      exact absurd hmid h0

/-- Witness for C9: passing a PENDING row with two prior attempts yields
an OK row with three attempts. -/
theorem pass_notification_counts_the_attempt_witness :
    ((⟨7, 3, 4, 0, 2, NotificationStatus.PENDING, none, none⟩ : Notification) ∈
        [(⟨7, 3, 4, 0, 2, NotificationStatus.PENDING, none, none⟩ : Notification)]) ∧
    ((7 : Nat) = 7) ∧
    idsNodup [⟨7, 3, 4, 0, 2, NotificationStatus.PENDING, none, none⟩] ∧
    ((NotificationStatus.PENDING : NotificationStatus) = NotificationStatus.PENDING) ∧
    passUpdate 5 ⟨7, 3, 4, 0, 2, NotificationStatus.PENDING, none, none⟩ ∈
      fby_pass_notification
        [⟨7, 3, 4, 0, 2, NotificationStatus.PENDING, none, none⟩] 5 7 :=
  ⟨by decide, by decide, by decide, by decide,
   (pass_notification_counts_the_attempt
      [⟨7, 3, 4, 0, 2, NotificationStatus.PENDING, none, none⟩] 5 7
      ⟨7, 3, 4, 0, 2, NotificationStatus.PENDING, none, none⟩
      (by decide) (by decide) (by decide) (by decide)).1⟩

/-- A table whose rows have pairwise distinct triples has at most one
row per triple. -/
theorem notifUnique_count (t : List Notification) (hu : notifUnique t)
    (h p : Nat) (s : NotificationStatus) : statusCount t h p s ≤ 1 := by
  unfold statusCount
  cases hf : t.filter (fun n => decide (tripleMatch h p s n)) with
  | nil => simp
  | cons a l =>
    cases l with
    | nil => simp
    | cons b l2 =>
      exfalso
      have hsub : (a :: b :: l2).Pairwise (fun x y =>
          ¬(x.hook_id = y.hook_id ∧ x.projection_id = y.projection_id ∧
            x.status = y.status)) := by
        rw [← hf]
        exact hu.sublist (List.filter_sublist t)
      have hab := (List.pairwise_cons.mp hsub).1 b (by simp)
      have hamem : a ∈ t.filter (fun n => decide (tripleMatch h p s n)) := by
        rw [hf]; simp
      have hbmem : b ∈ t.filter (fun n => decide (tripleMatch h p s n)) := by
        rw [hf]; simp
      have hap : tripleMatch h p s a := by
        have := (List.mem_filter.mp hamem).2
        rwa [decide_eq_true_eq] at this
      have hbp : tripleMatch h p s b := by
        have := (List.mem_filter.mp hbmem).2
        rwa [decide_eq_true_eq] at this
      exact hab ⟨hap.1.trans hbp.1.symm, hap.2.1.trans hbp.2.1.symm,
        hap.2.2.trans hbp.2.2.symm⟩

/-- Mapping a function that does not change whether rows satisfy a
predicate does not change how many rows satisfy it. -/
theorem filter_map_length {α : Type} (f : α → α) (pr : α → Bool)
    (hpr : ∀ x, pr (f x) = pr x) :
    ∀ l : List α, ((l.map f).filter pr).length = (l.filter pr).length := by
  intro l
  induction l with
  | nil => rfl
  | cons a tl ih =>
    simp only [List.map_cons, List.filter_cons, hpr a]
    cases pr a <;> simp [ih]

/-- `scheduleReset` never changes a row's uniqueness triple. -/
theorem scheduleReset_triple (nid : Nat) (now : Int) (h p : Nat)
    (n : Notification) :
    (scheduleReset nid now h p n).hook_id = n.hook_id ∧
    (scheduleReset nid now h p n).projection_id = n.projection_id ∧
    (scheduleReset nid now h p n).status = n.status := by
  unfold scheduleReset
  split <;> exact ⟨rfl, rfl, rfl⟩

/-- `failApplyRow` never changes a row's uniqueness triple. -/
theorem failApplyRow_triple (now sched : Int) (e : String) (p_id : Nat)
    (n : Notification) :
    (failApplyRow now sched e p_id n).hook_id = n.hook_id ∧
    (failApplyRow now sched e p_id n).projection_id = n.projection_id ∧
    (failApplyRow now sched e p_id n).status = n.status := by
  unfold failApplyRow failUpdate
  split <;> exact ⟨rfl, rfl, rfl⟩

/-- `fby_schedule_notification` preserves the uniqueness invariant. -/
theorem schedule_preserves_unique (t : List Notification) (nid : Nat)
    (now : Int) (h p : Nat) (hu : notifUnique t) :
    notifUnique (fby_schedule_notification t nid now h p) := by
  unfold fby_schedule_notification
  split
  · refine List.pairwise_map.mpr (hu.imp ?_)
    intro a b hab hc
    obtain ⟨ha1, ha2, ha3⟩ := scheduleReset_triple nid now h p a
    obtain ⟨hb1, hb2, hb3⟩ := scheduleReset_triple nid now h p b
    rw [ha1, ha2, ha3, hb1, hb2, hb3] at hc
    exact hab hc
  · rename_i hcond
    refine List.pairwise_append.mpr ⟨hu, List.pairwise_singleton _ _, ?_⟩
    intro a ha b hb
    have hb1 : b = ⟨nid, h, p, now, 0, NotificationStatus.PENDING, none, none⟩ := by
      simpa using hb
    subst hb1
    intro hc
    apply hcond
    rw [List.any_eq_true]
    refine ⟨a, ha, ?_⟩
    rw [decide_eq_true_eq]
    exact ⟨hc.1, hc.2.1, hc.2.2⟩

/-- `fby_fail_notification` preserves the uniqueness invariant. -/
theorem fail_preserves_unique (t : List Notification) (now sched : Int)
    (p_id : Nat) (e : String) (hu : notifUnique t) :
    notifUnique (fby_fail_notification t now sched p_id e) := by
  unfold fby_fail_notification
  refine List.pairwise_map.mpr (hu.imp ?_)
  intro a b hab hc
  obtain ⟨ha1, ha2, ha3⟩ := failApplyRow_triple now sched e p_id a
  obtain ⟨hb1, hb2, hb3⟩ := failApplyRow_triple now sched e p_id b
  rw [ha1, ha2, ha3, hb1, hb2, hb3] at hc
  exact hab hc

/-- `fby_pass_notification` preserves the uniqueness invariant: deleting
the hook's old OK rows before the update makes room for the new OK row. -/
theorem pass_preserves_unique (t : List Notification) (now : Int)
    (p_id : Nat) (hu : notifUnique t) (hids : idsNodup t) :
    notifUnique (fby_pass_notification t now p_id) := by
  unfold fby_pass_notification
  cases hf : t.find? (fun n => decide (n.id = p_id)) with
  | none => exact hu
  | some n =>
    have hn : n ∈ t := List.mem_of_find?_eq_some hf
    have hnid : n.id = p_id := by
      have := List.find?_some hf
      rwa [decide_eq_true_eq] at this
    refine List.pairwise_map.mpr ?_
    have hsb := List.filter_sublist (p :=
      fun m => !(decide (m.hook_id = n.hook_id ∧
        m.status = NotificationStatus.OK))) t
    have P1 := hu.sublist hsb
    have P2 : (t.filter (fun m => !(decide (m.hook_id = n.hook_id ∧
        m.status = NotificationStatus.OK)))).Pairwise
        (fun a b => a.id ≠ b.id) :=
      (List.pairwise_map.mp hids).sublist hsb
    refine (P1.and P2).imp_of_mem ?_
    intro a b ha hb hR
    obtain ⟨hRab, hne⟩ := hR
    have hat : a ∈ t := List.mem_of_mem_filter ha
    have hbt : b ∈ t := List.mem_of_mem_filter hb
    have hqa : ¬(a.hook_id = n.hook_id ∧ a.status = NotificationStatus.OK) := by
      have h2 := (List.mem_filter.mp ha).2
      rw [Bool.not_eq_true', decide_eq_false_iff_not] at h2
      exact h2
    have hqb : ¬(b.hook_id = n.hook_id ∧ b.status = NotificationStatus.OK) := by
      have h2 := (List.mem_filter.mp hb).2
      rw [Bool.not_eq_true', decide_eq_false_iff_not] at h2
      exact h2
    by_cases haid : a.id = p_id <;> by_cases hbid : b.id = p_id
    · exact absurd (haid.trans hbid.symm) hne
    · have han : a = n := id_injective hids hat hn (haid.trans hnid.symm)
      intro hc
      unfold passApplyRow at hc
      rw [if_pos haid, if_neg hbid] at hc
      have hhk : (passUpdate now a).hook_id = n.hook_id := by
        rw [han]
        rfl
      exact hqb ⟨hc.1.symm.trans hhk, hc.2.2.symm⟩
    · have hbn : b = n := id_injective hids hbt hn (hbid.trans hnid.symm)
      intro hc
      unfold passApplyRow at hc
      rw [if_neg haid, if_pos hbid] at hc
      have hhk : (passUpdate now b).hook_id = n.hook_id := by
        rw [hbn]
        rfl
      exact hqa ⟨hc.1.trans hhk, hc.2.2⟩
    · intro hc
      unfold passApplyRow at hc
      rw [if_neg haid, if_neg hbid] at hc
      exact hRab hc

/-- Claim C2: at most one PENDING and at most one OK notification exists
per `(hook, projection)` at any instant, and each of
`fby_schedule_notification`, `fby_pass_notification` and
`fby_fail_notification` preserves this invariant. -/
theorem notification_status_uniqueness_preserved
    (t : List Notification) (nid : Nat) (now1 now2 now3 sched : Int)
    (h p p_id p_id2 : Nat) (e : String)
    (hu : notifUnique t) (hids : idsNodup t) :
    (∀ h2 p2 s, statusCount t h2 p2 s ≤ 1) ∧
    (notifUnique (fby_schedule_notification t nid now1 h p) ∧
      ∀ h2 p2 s,
        statusCount (fby_schedule_notification t nid now1 h p) h2 p2 s ≤ 1) ∧
    (notifUnique (fby_pass_notification t now2 p_id) ∧
      ∀ h2 p2 s, statusCount (fby_pass_notification t now2 p_id) h2 p2 s ≤ 1) ∧
    (notifUnique (fby_fail_notification t now3 sched p_id2 e) ∧
      ∀ h2 p2 s,
        statusCount (fby_fail_notification t now3 sched p_id2 e) h2 p2 s ≤ 1) := by
  have h1 := schedule_preserves_unique t nid now1 h p hu
  have h2 := pass_preserves_unique t now2 p_id hu hids
  have h3 := fail_preserves_unique t now3 sched p_id2 e hu
  exact ⟨notifUnique_count t hu,
    ⟨h1, notifUnique_count _ h1⟩,
    ⟨h2, notifUnique_count _ h2⟩,
    ⟨h3, notifUnique_count _ h3⟩⟩

/-- Witness for C2 on a concrete two-row table (one PENDING and one OK
row for the same hook and projection). -/
theorem notification_status_uniqueness_preserved_witness :
    notifUnique
      [⟨1, 5, 6, 0, 0, NotificationStatus.PENDING, none, none⟩,
       ⟨2, 5, 6, 0, 1, NotificationStatus.OK, some 0, none⟩] ∧
    idsNodup
      [⟨1, 5, 6, 0, 0, NotificationStatus.PENDING, none, none⟩,
       ⟨2, 5, 6, 0, 1, NotificationStatus.OK, some 0, none⟩] ∧
    notifUnique (fby_schedule_notification
      [⟨1, 5, 6, 0, 0, NotificationStatus.PENDING, none, none⟩,
       ⟨2, 5, 6, 0, 1, NotificationStatus.OK, some 0, none⟩] 3 7 5 6) ∧
    notifUnique (fby_pass_notification
      [⟨1, 5, 6, 0, 0, NotificationStatus.PENDING, none, none⟩,
       ⟨2, 5, 6, 0, 1, NotificationStatus.OK, some 0, none⟩] 7 1) ∧
    notifUnique (fby_fail_notification
      [⟨1, 5, 6, 0, 0, NotificationStatus.PENDING, none, none⟩,
       ⟨2, 5, 6, 0, 1, NotificationStatus.OK, some 0, none⟩] 7 9 1 "boom") := by
  refine ⟨by decide, by decide, ?_, ?_, ?_⟩
  · exact (notification_status_uniqueness_preserved
      [⟨1, 5, 6, 0, 0, NotificationStatus.PENDING, none, none⟩,
       ⟨2, 5, 6, 0, 1, NotificationStatus.OK, some 0, none⟩]
      3 7 7 7 9 5 6 1 1 "boom" (by decide) (by decide)).2.1.1
  · exact (notification_status_uniqueness_preserved
      [⟨1, 5, 6, 0, 0, NotificationStatus.PENDING, none, none⟩,
       ⟨2, 5, 6, 0, 1, NotificationStatus.OK, some 0, none⟩]
      3 7 7 7 9 5 6 1 1 "boom" (by decide) (by decide)).2.2.1.1
  · exact (notification_status_uniqueness_preserved
      [⟨1, 5, 6, 0, 0, NotificationStatus.PENDING, none, none⟩,
       ⟨2, 5, 6, 0, 1, NotificationStatus.OK, some 0, none⟩]
      3 7 7 7 9 5 6 1 1 "boom" (by decide) (by decide)).2.2.2.1

/-- After any `fby_schedule_notification` call there is exactly one
`(h, p, PENDING)` row, provided the table satisfied the uniqueness
invariant before the call. -/
theorem schedule_pending_count_one (t : List Notification) (nid : Nat)
    (now : Int) (h p : Nat) (hu : notifUnique t) :
    statusCount (fby_schedule_notification t nid now h p) h p
      NotificationStatus.PENDING = 1 := by
  have hpr : ∀ x, (decide (tripleMatch h p NotificationStatus.PENDING
      (scheduleReset nid now h p x))) =
      decide (tripleMatch h p NotificationStatus.PENDING x) := by
    intro x
    obtain ⟨h1, h2, h3⟩ := scheduleReset_triple nid now h p x
    apply decide_eq_decide.mpr
    unfold tripleMatch
    rw [h1, h2, h3]
  unfold fby_schedule_notification
  by_cases hc : (t.any (fun n => decide (isPendingFor h p n))) = true
  · rw [if_pos hc]
    unfold statusCount
    rw [filter_map_length _ _ hpr t]
    obtain ⟨n, hn, hdec⟩ := List.any_eq_true.mp hc
    have hmem : n ∈ t.filter
        (fun x => decide (tripleMatch h p NotificationStatus.PENDING x)) :=
      List.mem_filter.mpr ⟨hn, hdec⟩
    have hpos : 0 < (t.filter
        (fun x => decide (tripleMatch h p NotificationStatus.PENDING x))).length :=
      List.length_pos.mpr (fun hnil => by rw [hnil] at hmem; exact absurd hmem (by simp))
    have hle := notifUnique_count t hu h p NotificationStatus.PENDING
    unfold statusCount at hle
    omega
  · rw [if_neg hc]
    unfold statusCount
    rw [List.filter_append]
    have hnil : t.filter
        (fun x => decide (tripleMatch h p NotificationStatus.PENDING x)) = [] := by
      rw [List.filter_eq_nil_iff]
      intro a ha hdec
      exact hc (List.any_eq_true.mpr ⟨a, ha, hdec⟩)
    rw [hnil]
    simp [tripleMatch]

/-- Every `(h, p, PENDING)` row present after `fby_schedule_notification`
carries the freshly reset bookkeeping columns. -/
theorem schedule_pending_fields (t : List Notification) (nid : Nat)
    (now : Int) (h p : Nat) :
    ∀ m ∈ (fby_schedule_notification t nid now h p).filter
        (fun n => decide (isPendingFor h p n)),
      m.attempts = 0 ∧ m.scheduled_for = now ∧ m.last_error = none ∧
        m.last_attempted = none := by
  intro m hm
  unfold fby_schedule_notification at hm
  split at hm
  · obtain ⟨hmm, hpd⟩ := List.mem_filter.mp hm
    obtain ⟨m0, hm0, hg⟩ := List.mem_map.mp hmm
    unfold scheduleReset at hg
    by_cases hp0 : isPendingFor h p m0
    · rw [if_pos hp0] at hg
      rw [← hg]
      exact ⟨rfl, rfl, rfl, rfl⟩
    · rw [if_neg hp0] at hg
      rw [hg] at hp0
      rw [decide_eq_true_eq] at hpd
      exact absurd hpd hp0
  · rename_i hcond
    rw [List.filter_append] at hm
    rcases List.mem_append.mp hm with hml | hmr
    · obtain ⟨hmm, hpd⟩ := List.mem_filter.mp hml
      exact absurd (List.any_eq_true.mpr ⟨m, hmm, hpd⟩) hcond
    · have : m = ⟨nid, h, p, now, 0, NotificationStatus.PENDING, none, none⟩ := by
        have := List.mem_of_mem_filter hmr
        simpa using this
      rw [this]
      exact ⟨rfl, rfl, rfl, rfl⟩

/-- Claim C4: `fby_schedule_notification` inserts a fresh PENDING row
when none exists for `(h, p)` and otherwise resets the existing PENDING
row; scheduling twice before dispatch leaves exactly one PENDING row for
`(h, p)`, with `attempts = 0` and a clean error column. -/
theorem schedule_notification_upsert_dedupes
    (t : List Notification) (nid1 nid2 : Nat) (now1 now2 : Int) (h p : Nat)
    (hu : notifUnique t) :
    ((∀ n ∈ t, ¬ isPendingFor h p n) →
      fby_schedule_notification t nid1 now1 h p =
        t ++ [⟨nid1, h, p, now1, 0, NotificationStatus.PENDING, none, none⟩]) ∧
    ((∃ n ∈ t, isPendingFor h p n) →
      fby_schedule_notification t nid1 now1 h p =
        t.map (scheduleReset nid1 now1 h p)) ∧
    statusCount
      (fby_schedule_notification (fby_schedule_notification t nid1 now1 h p)
        nid2 now2 h p) h p NotificationStatus.PENDING = 1 ∧
    (∀ m ∈ (fby_schedule_notification (fby_schedule_notification t nid1 now1 h p)
          nid2 now2 h p).filter (fun n => decide (isPendingFor h p n)),
      m.attempts = 0 ∧ m.scheduled_for = now2 ∧ m.last_error = none) := by
  refine ⟨?_, ?_, ?_, ?_⟩
  · intro hno
    unfold fby_schedule_notification
    rw [if_neg]
    intro hcontra
    obtain ⟨n, hn, hdec⟩ := List.any_eq_true.mp hcontra
    rw [decide_eq_true_eq] at hdec
    exact hno n hn hdec
  · intro hyes
    unfold fby_schedule_notification
    rw [if_pos]
    obtain ⟨n, hn, hdec⟩ := hyes
    exact List.any_eq_true.mpr ⟨n, hn, decide_eq_true hdec⟩
  · exact schedule_pending_count_one _ nid2 now2 h p
      (schedule_preserves_unique t nid1 now1 h p hu)
  · intro m hm
    obtain ⟨h1, h2, h3, _⟩ := schedule_pending_fields _ nid2 now2 h p m hm
    exact ⟨h1, h2, h3⟩

/-- Witness for C4: scheduling hook 5, projection 6 twice against a table
that already holds an unrelated OK row. -/
theorem schedule_notification_upsert_dedupes_witness :
    notifUnique [⟨2, 5, 6, 0, 1, NotificationStatus.OK, some 0, none⟩] ∧
    statusCount
      (fby_schedule_notification
        (fby_schedule_notification
          [⟨2, 5, 6, 0, 1, NotificationStatus.OK, some 0, none⟩] 3 10 5 6)
        4 20 5 6) 5 6 NotificationStatus.PENDING = 1 ∧
    (∀ m ∈ (fby_schedule_notification
          (fby_schedule_notification
            [⟨2, 5, 6, 0, 1, NotificationStatus.OK, some 0, none⟩] 3 10 5 6)
          4 20 5 6).filter (fun n => decide (isPendingFor 5 6 n)),
      m.attempts = 0 ∧ m.scheduled_for = 20 ∧ m.last_error = none) :=
  ⟨by decide,
   (schedule_notification_upsert_dedupes
      [⟨2, 5, 6, 0, 1, NotificationStatus.OK, some 0, none⟩]
      3 4 10 20 5 6 (by decide)).2.2.1,
   (schedule_notification_upsert_dedupes
      [⟨2, 5, 6, 0, 1, NotificationStatus.OK, some 0, none⟩]
      3 4 10 20 5 6 (by decide)).2.2.2⟩

/-! ## Per-entity aggregate functions (claim C1)

The generated SQL bodies of `get_<entity>_v<version>_aggregate` are not
part of the sources (only the tests that exercise them are), so the two
formulations the specification gives are modelled from the spec and
compared: the per-tuple last-frame algorithm of section 4.1 and the
history fold of section 8. -/

/-- The `POST`/`DELETE` action of a data frame. -/
inductive FrameAction
  | POST
  | DELETE
  deriving DecidableEq, Repr

/-- The ordering key of a change set: `(effective, id)`. -/
structure ChangeSetKey where
  effective : Int
  csId : Nat
  deriving DecidableEq, Repr

/-- A data frame together with its change set's ordering key, its own
insertion id, its identifier tuple (`key`) and its non-identifier
columns (`value`). -/
structure Frame (κ ν : Type) where
  cs : ChangeSetKey
  frameId : Nat
  action : FrameAction
  key : κ
  value : ν
  deriving DecidableEq, Repr

/-- `(effective, id)` order on change sets, as a boolean. -/
def csKeyLe (a b : ChangeSetKey) : Bool :=
  decide (a.effective < b.effective) ||
    (decide (a.effective = b.effective) && decide (a.csId ≤ b.csId))

/-- Frame order: change sets by `(effective, id)`, frames inside one
change set by insertion id. -/
def frameLe {κ ν : Type} (f g : Frame κ ν) : Bool :=
  decide (f.cs.effective < g.cs.effective) ||
    (decide (f.cs.effective = g.cs.effective) &&
      (decide (f.cs.csId < g.cs.csId) ||
        (decide (f.cs.csId = g.cs.csId) && decide (f.frameId ≤ g.frameId))))

/-- Insert into a list sorted by `le`. -/
def insertBy {α : Type} (le : α → α → Bool) (a : α) : List α → List α
  | [] => [a]
  | b :: l => if le a b then a :: b :: l else b :: insertBy le a l

/-- Insertion sort by `le`. -/
def sortBy {α : Type} (le : α → α → Bool) (l : List α) : List α :=
  l.foldr (insertBy le) []

/-- The frames of change sets `≤ C` in `(effective, id)` order. -/
def framesUpTo {κ ν : Type} (frames : List (Frame κ ν)) (C : ChangeSetKey) :
    List (Frame κ ν) :=
  sortBy frameLe (frames.filter (fun f => csKeyLe f.cs C))

/-- The value a frame contributes for its key: `POST` asserts the
non-identifier columns, `DELETE` retracts the tuple. -/
def frameResult {κ ν : Type} (f : Frame κ ν) : Option ν :=
  match f.action with
  | FrameAction.POST => some f.value
  | FrameAction.DELETE => none

/-- One fold step of the frame history: the frame overwrites (or on
DELETE removes) the entry of its identifier tuple. -/
def applyFrame {κ ν : Type} [DecidableEq κ] (acc : κ → Option ν)
    (f : Frame κ ν) : κ → Option ν :=
  fun k => if k = f.key then frameResult f else acc k

/-- Modelled from the spec: `get_<E>_aggregate(C)` "equals the fold, in
`(effective, id)` order, of every POST/DELETE frame for E in change sets
`≤ C`, keyed by the declared identifier tuple, DELETE removing"
(section 8). -/
def aggregateFold {κ ν : Type} [DecidableEq κ] (frames : List (Frame κ ν))
    (C : ChangeSetKey) : κ → Option ν :=
  (framesUpTo frames C).foldl applyFrame (fun _ => none)

/-- The last frame for key `k` in the ordered history (the fold that
keeps the latest frame matching `k`). -/
def lastFrameFor {κ ν : Type} [DecidableEq κ] (frames : List (Frame κ ν))
    (C : ChangeSetKey) (k : κ) : Option (Frame κ ν) :=
  (framesUpTo frames C).foldl
    (fun acc f => if f.key = k then some f else acc) none

/-- Modelled from the spec: the aggregate algorithm of section 4.1 —
"for each identifier tuple, pick the last frame in that order; if its
action is DELETE, omit the tuple; otherwise emit its non-identifier
fields". -/
def aggregateByLastFrame {κ ν : Type} [DecidableEq κ]
    (frames : List (Frame κ ν)) (C : ChangeSetKey) : κ → Option ν :=
  fun k =>
    match lastFrameFor frames C k with
    | none => none
    | some f => frameResult f

/-- Folding the last-match accumulator from `some g` is folding from
`none` with `g` as the fallback. -/
theorem lastPick_acc {κ ν : Type} [DecidableEq κ] (k : κ) :
    ∀ (l : List (Frame κ ν)) (g : Frame κ ν),
      l.foldl (fun acc f => if f.key = k then some f else acc) (some g) =
        some ((l.foldl (fun acc f => if f.key = k then some f else acc)
          none).getD g) := by
  intro l
  induction l with
  | nil => intro g; rfl
  | cons f tl ih =>
    intro g
    by_cases hf : f.key = k
    · simp only [List.foldl_cons, if_pos hf]
      rw [ih f, Option.getD_some]
    · simp only [List.foldl_cons, if_neg hf]
      exact ih g

/-- Evaluating the history fold at `k` yields the contribution of the
last frame whose key is `k`, if any. -/
theorem foldl_applyFrame_eval {κ ν : Type} [DecidableEq κ] (k : κ) :
    ∀ (l : List (Frame κ ν)) (init : κ → Option ν),
      l.foldl applyFrame init k =
        match l.foldl (fun acc f => if f.key = k then some f else acc) none with
        | some f => frameResult f
        | none => init k := by
  intro l
  induction l with
  | nil => intro init; rfl
  | cons f tl ih =>
    intro init
    by_cases hf : f.key = k
    · simp only [List.foldl_cons, if_pos hf]
      rw [ih (applyFrame init f), lastPick_acc k tl f]
      cases htl : tl.foldl (fun acc f => if f.key = k then some f else acc) none with
      | none =>
        simp only [htl, Option.getD_none]
        unfold applyFrame
        rw [if_pos hf.symm]
      | some g => simp only [htl, Option.getD_some]
    · simp only [List.foldl_cons, if_neg hf]
      rw [ih (applyFrame init f)]
      cases htl : tl.foldl (fun acc f => if f.key = k then some f else acc) none with
      | none =>
        simp only [htl]
        unfold applyFrame
        rw [if_neg (fun hk => hf hk.symm)]
      | some g => simp only [htl]

/-- Claim C1: for every frame history, cut-off change set and identifier
tuple, the per-tuple last-frame algorithm and the ordered history fold
agree — the generated aggregate function equals the fold of the
POST/DELETE frame history keyed by the identifier tuple. -/
theorem aggregate_equals_history_fold {κ ν : Type} [DecidableEq κ]
    (frames : List (Frame κ ν)) (C : ChangeSetKey) (k : κ) :
    aggregateByLastFrame frames C k = aggregateFold frames C k := by
  unfold aggregateByLastFrame aggregateFold lastFrameFor
  rw [foldl_applyFrame_eval k (framesUpTo frames C) (fun _ => none)]
  cases (framesUpTo frames C).foldl
      (fun acc f => if f.key = k then some f else acc) none with
  | none => rfl
  | some f => rfl

/-- Witness applying C1 to the VAT-rate scenario of the repository's
tests (three change sets, the last frame for `zero` a DELETE). -/
theorem aggregate_equals_history_fold_witness :
    aggregateByLastFrame
        [⟨⟨0, 1⟩, 1, FrameAction.POST, "standard", some 100⟩,
         ⟨⟨0, 1⟩, 2, FrameAction.POST, "reduced", some 50⟩,
         ⟨⟨0, 1⟩, 3, FrameAction.POST, "zero", some 0⟩,
         ⟨⟨1, 2⟩, 4, FrameAction.POST, "standard", some 125⟩,
         ⟨⟨1, 2⟩, 5, FrameAction.POST, "reduced", some 70⟩,
         ⟨⟨1, 2⟩, 6, FrameAction.POST, "zero", some 0⟩,
         ⟨⟨2, 3⟩, 7, FrameAction.POST, "standard", some 150⟩,
         ⟨⟨2, 3⟩, 8, FrameAction.POST, "reduced", some 100⟩,
         ⟨⟨2, 3⟩, 9, FrameAction.DELETE, "zero", (none : Option Int)⟩]
        ⟨2, 3⟩ "zero" =
      aggregateFold
        [⟨⟨0, 1⟩, 1, FrameAction.POST, "standard", some 100⟩,
         ⟨⟨0, 1⟩, 2, FrameAction.POST, "reduced", some 50⟩,
         ⟨⟨0, 1⟩, 3, FrameAction.POST, "zero", some 0⟩,
         ⟨⟨1, 2⟩, 4, FrameAction.POST, "standard", some 125⟩,
         ⟨⟨1, 2⟩, 5, FrameAction.POST, "reduced", some 70⟩,
         ⟨⟨1, 2⟩, 6, FrameAction.POST, "zero", some 0⟩,
         ⟨⟨2, 3⟩, 7, FrameAction.POST, "standard", some 150⟩,
         ⟨⟨2, 3⟩, 8, FrameAction.POST, "reduced", some 100⟩,
         ⟨⟨2, 3⟩, 9, FrameAction.DELETE, "zero", (none : Option Int)⟩]
        ⟨2, 3⟩ "zero" :=
  aggregate_equals_history_fold _ _ _

/-- The delete-wins seed scenario of the tests, evaluated concretely:
at the third change set the `zero` tuple is omitted and `standard` is
at its latest rate, while at the first change set `zero` is present. -/
theorem aggregate_delete_wins_scenario :
    aggregateByLastFrame
        [⟨⟨0, 1⟩, 1, FrameAction.POST, "standard", some 100⟩,
         ⟨⟨0, 1⟩, 2, FrameAction.POST, "reduced", some 50⟩,
         ⟨⟨0, 1⟩, 3, FrameAction.POST, "zero", some 0⟩,
         ⟨⟨1, 2⟩, 4, FrameAction.POST, "standard", some 125⟩,
         ⟨⟨1, 2⟩, 5, FrameAction.POST, "reduced", some 70⟩,
         ⟨⟨1, 2⟩, 6, FrameAction.POST, "zero", some 0⟩,
         ⟨⟨2, 3⟩, 7, FrameAction.POST, "standard", some 150⟩,
         ⟨⟨2, 3⟩, 8, FrameAction.POST, "reduced", some 100⟩,
         ⟨⟨2, 3⟩, 9, FrameAction.DELETE, "zero", (none : Option Int)⟩]
        ⟨2, 3⟩ "zero" = none ∧
    aggregateByLastFrame
        [⟨⟨0, 1⟩, 1, FrameAction.POST, "standard", some 100⟩,
         ⟨⟨0, 1⟩, 2, FrameAction.POST, "reduced", some 50⟩,
         ⟨⟨0, 1⟩, 3, FrameAction.POST, "zero", some 0⟩,
         ⟨⟨1, 2⟩, 4, FrameAction.POST, "standard", some 125⟩,
         ⟨⟨1, 2⟩, 5, FrameAction.POST, "reduced", some 70⟩,
         ⟨⟨1, 2⟩, 6, FrameAction.POST, "zero", some 0⟩,
         ⟨⟨2, 3⟩, 7, FrameAction.POST, "standard", some 150⟩,
         ⟨⟨2, 3⟩, 8, FrameAction.POST, "reduced", some 100⟩,
         ⟨⟨2, 3⟩, 9, FrameAction.DELETE, "zero", (none : Option Int)⟩]
        ⟨2, 3⟩ "standard" = some (some 150) ∧
    aggregateByLastFrame
        [⟨⟨0, 1⟩, 1, FrameAction.POST, "standard", some 100⟩,
         ⟨⟨0, 1⟩, 2, FrameAction.POST, "reduced", some 50⟩,
         ⟨⟨0, 1⟩, 3, FrameAction.POST, "zero", some 0⟩,
         ⟨⟨1, 2⟩, 4, FrameAction.POST, "standard", some 125⟩,
         ⟨⟨1, 2⟩, 5, FrameAction.POST, "reduced", some 70⟩,
         ⟨⟨1, 2⟩, 6, FrameAction.POST, "zero", some 0⟩,
         ⟨⟨2, 3⟩, 7, FrameAction.POST, "standard", some 150⟩,
         ⟨⟨2, 3⟩, 8, FrameAction.POST, "reduced", some 100⟩,
         ⟨⟨2, 3⟩, 9, FrameAction.DELETE, "zero", (none : Option Int)⟩]
        ⟨0, 1⟩ "zero" = some (some 0) := by
  refine ⟨by decide, by decide, by decide⟩

/-! ## Change log (claim C3)

`getChangeLog` itself is not part of the sources (only its tests are),
so it is modelled from the spec: all change sets containing at least one
data frame for an entity the projection depends on, in
`(effective ASC, id ASC)` order, de-duplicated by change-set id. -/

/-- A row of the change-set table as the change-log query sees it. -/
structure ChangeSetRow where
  id : Nat
  effective : Int
  deriving DecidableEq, Repr

/-- A data-frame row reduced to the columns the change-log query joins
on. -/
structure DataFrameRow where
  changeSetId : Nat
  entityId : Nat
  deriving DecidableEq, Repr

/-- The `(effective ASC, id ASC)` order on change sets. -/
def csRowLe (a b : ChangeSetRow) : Prop :=
  a.effective < b.effective ∨ (a.effective = b.effective ∧ a.id ≤ b.id)

instance : DecidableRel csRowLe := fun a b => by
  unfold csRowLe
  exact inferInstance

instance : IsTotal ChangeSetRow csRowLe :=
  ⟨by intro a b; unfold csRowLe; omega⟩

instance : IsTrans ChangeSetRow csRowLe :=
  ⟨by intro a b c; unfold csRowLe; omega⟩

/-- Whether a change set contributes to the change log of a projection
with dependency set `deps`: it contains at least one data frame for one
of those entities. -/
def touchesProjection (deps : List Nat) (frames : List DataFrameRow)
    (c : ChangeSetRow) : Bool :=
  frames.any (fun f => decide (f.changeSetId = c.id ∧ f.entityId ∈ deps))

/-- Modelled from the spec: `getChangeLog(projection)` — "all change
sets that contain at least one data frame for any entity the projection
depends on, in `(effective ASC, id ASC)` order, de-duplicated by
change-set id". `deps` is the projection's entity-id set, `frames` the
data-frame table and `css` the change-set table. -/
def getChangeLog (deps : List Nat) (frames : List DataFrameRow)
    (css : List ChangeSetRow) : List ChangeSetRow :=
  List.insertionSort csRowLe (css.filter (touchesProjection deps frames))

/-- Claim C3: the change log consists of exactly the change sets that
hold a data frame for a dependency of the projection, its entries are
strictly ordered by `(effective, id)` and no change-set id repeats. -/
theorem changelog_membership_order_dedup (deps : List Nat)
    (frames : List DataFrameRow) (css : List ChangeSetRow)
    (hids : (css.map (fun c => c.id)).Nodup) :
    (∀ c, c ∈ getChangeLog deps frames css ↔
      (c ∈ css ∧ ∃ f ∈ frames, f.changeSetId = c.id ∧ f.entityId ∈ deps)) ∧
    (getChangeLog deps frames css).Pairwise (fun a b =>
      a.effective < b.effective ∨ (a.effective = b.effective ∧ a.id < b.id)) ∧
    ((getChangeLog deps frames css).map (fun c => c.id)).Nodup := by
  have hperm : List.Perm (getChangeLog deps frames css)
      (css.filter (touchesProjection deps frames)) :=
    List.perm_insertionSort csRowLe _
  have hnodup : ((getChangeLog deps frames css).map (fun c => c.id)).Nodup := by
    have hsubl : ((css.filter (touchesProjection deps frames)).map
        (fun c => c.id)).Nodup :=
      hids.sublist ((List.filter_sublist css).map (fun c => c.id))
    exact ((hperm.map (fun c => c.id)).nodup_iff).mpr hsubl
  refine ⟨?_, ?_, hnodup⟩
  · intro c
    rw [hperm.mem_iff, List.mem_filter]
    unfold touchesProjection
    rw [List.any_eq_true]
    constructor
    · rintro ⟨hcs, f, hf, hdec⟩
      rw [decide_eq_true_eq] at hdec
      exact ⟨hcs, f, hf, hdec⟩
    · rintro ⟨hcs, f, hf, hdec⟩
      exact ⟨hcs, f, hf, decide_eq_true hdec⟩
  · have hsorted : (getChangeLog deps frames css).Pairwise csRowLe :=
      List.sorted_insertionSort csRowLe _
    have hne : (getChangeLog deps frames css).Pairwise
        (fun a b => a.id ≠ b.id) := List.pairwise_map.mp hnodup
    refine (hsorted.and hne).imp ?_
    intro a b hab
    obtain ⟨hle, hne2⟩ := hab
    unfold csRowLe at hle
    omega

/-- Witness for C3 on the fixture of the repository's change-log test:
two projections, five change sets, frames placing change sets 1, 2 and 4
in the VAT Rates projection's log. -/
theorem changelog_membership_order_dedup_witness :
    (([⟨1, 0⟩, ⟨2, 0⟩, ⟨3, 0⟩, ⟨4, 1⟩, ⟨5, 1⟩] : List ChangeSetRow).map
        (fun c => c.id)).Nodup ∧
    (∀ c, c ∈ getChangeLog [1, 2]
        [⟨1, 1⟩, ⟨2, 2⟩, ⟨3, 3⟩, ⟨4, 2⟩, ⟨5, 3⟩]
        [⟨1, 0⟩, ⟨2, 0⟩, ⟨3, 0⟩, ⟨4, 1⟩, ⟨5, 1⟩] ↔
      (c ∈ ([⟨1, 0⟩, ⟨2, 0⟩, ⟨3, 0⟩, ⟨4, 1⟩, ⟨5, 1⟩] : List ChangeSetRow) ∧
        ∃ f ∈ ([⟨1, 1⟩, ⟨2, 2⟩, ⟨3, 3⟩, ⟨4, 2⟩, ⟨5, 3⟩] : List DataFrameRow),
          f.changeSetId = c.id ∧ f.entityId ∈ [1, 2])) ∧
    (getChangeLog [1, 2] [⟨1, 1⟩, ⟨2, 2⟩, ⟨3, 3⟩, ⟨4, 2⟩, ⟨5, 3⟩]
        [⟨1, 0⟩, ⟨2, 0⟩, ⟨3, 0⟩, ⟨4, 1⟩, ⟨5, 1⟩]).Pairwise (fun a b =>
      a.effective < b.effective ∨ (a.effective = b.effective ∧ a.id < b.id)) := by
  refine ⟨by decide, ?_, ?_⟩
  · exact (changelog_membership_order_dedup [1, 2]
      [⟨1, 1⟩, ⟨2, 2⟩, ⟨3, 3⟩, ⟨4, 2⟩, ⟨5, 3⟩]
      [⟨1, 0⟩, ⟨2, 0⟩, ⟨3, 0⟩, ⟨4, 1⟩, ⟨5, 1⟩] (by decide)).1
  · exact (changelog_membership_order_dedup [1, 2]
      [⟨1, 1⟩, ⟨2, 2⟩, ⟨3, 3⟩, ⟨4, 2⟩, ⟨5, 3⟩]
      [⟨1, 0⟩, ⟨2, 0⟩, ⟨3, 0⟩, ⟨4, 1⟩, ⟨5, 1⟩] (by decide)).2.1

/-- The change-log fixture of the repository's test evaluated concretely:
the VAT Rates projection (entities 1 and 2) sees change sets 1, 2 and 4,
in that order, and the one-change-set dedupe fixture yields a single
entry. -/
theorem changelog_test_fixture :
    getChangeLog [1, 2] [⟨1, 1⟩, ⟨2, 2⟩, ⟨3, 3⟩, ⟨4, 2⟩, ⟨5, 3⟩]
        [⟨1, 0⟩, ⟨2, 0⟩, ⟨3, 0⟩, ⟨4, 1⟩, ⟨5, 1⟩] =
      [⟨1, 0⟩, ⟨2, 0⟩, ⟨4, 1⟩] ∧
    getChangeLog [1, 2] [⟨1, 1⟩, ⟨1, 2⟩, ⟨1, 2⟩] [⟨1, 0⟩] = [⟨1, 0⟩] := by
  refine ⟨by decide, by decide⟩

/-! ## Projection listing (claim C7)

`getProjections` itself is not part of the sources; the repository's
test inserts three projections and asserts the returned order, so the
operation is modelled from that test. -/

/-- A row of the projection table (`id SERIAL`, `name`, `version`). -/
structure Projection where
  id : Nat
  name : String
  version : Nat
  deriving DecidableEq, Repr

/-- Code-point lexicographic order on character lists. -/
def charListLtB : List Char → List Char → Bool
  | [], [] => false
  | [], _ :: _ => true
  | _ :: _, [] => false
  | a :: as, b :: bs =>
    decide (a.toNat < b.toNat) ||
      (decide (a.toNat = b.toNat) && charListLtB as bs)

/-- Lexicographic order on strings by code point (the `ORDER BY` order of
a text column). -/
def strLtB (s t : String) : Bool :=
  charListLtB s.data t.data

/-- The `(name, version)` order the specification asserts for
`getProjections`. -/
def projNameVersionLeB (a b : Projection) : Bool :=
  strLtB a.name b.name ||
    (decide (a.name = b.name) && decide (a.version ≤ b.version))

/-- Ascending primary-key order. -/
def projIdLe (a b : Projection) : Prop :=
  a.id ≤ b.id

instance : DecidableRel projIdLe := fun a b => by
  unfold projIdLe
  exact inferInstance

instance : IsTotal Projection projIdLe :=
  ⟨by intro a b; unfold projIdLe; omega⟩

instance : IsTrans Projection projIdLe :=
  ⟨by intro a b c; unfold projIdLe; omega⟩

/-- Modelled from the repository's test (not from the spec sentence):
`getProjections()` returns the projection rows in id (insertion) order —
the test inserts ids 1, 2, 3 and asserts exactly that order back. -/
def getProjections (rows : List Projection) : List Projection :=
  List.insertionSort projIdLe rows

/-- The rows the repository's listing test inserts, and — per its
assertions — the exact list `getProjections` returns, in this order. -/
def projectionsTestTable : List Projection :=
  [⟨1, "VAT Rates", 1⟩, ⟨2, "VAT Rates", 2⟩, ⟨3, "CGT Rates", 1⟩]

/-- Counterexample to claim C7: the list the repository's test asserts
`getProjections` returns is not ordered by `(name, version)` — the test
expects `CGT Rates` last although it sorts first by name. -/
theorem projections_not_ordered_by_name_version :
    ¬ ((getProjections projectionsTestTable).Pairwise
        (fun a b => projNameVersionLeB a b = true)) := by
  decide

/-- Amended claim C7: `getProjections()` returns all the projections, in
ascending id (insertion) order rather than `(name, version)` order; on
the test fixture it returns the rows exactly as inserted. -/
theorem projections_listed_in_id_order (rows : List Projection) :
    (getProjections rows).Pairwise projIdLe ∧
    List.Perm (getProjections rows) rows ∧
    getProjections projectionsTestTable = projectionsTestTable := by
  refine ⟨List.sorted_insertionSort projIdLe rows,
    List.perm_insertionSort projIdLe rows, by decide⟩

/-! ## Change-set insert trigger (claim C8, migration 006) -/

/-- A row of the `rdf_change_set` table of migration 006 (the `notes`
column is irrelevant to the claim and omitted). -/
structure StoredChangeSet where
  id : Nat
  effective : Int
  last_modified : Int
  entity_tag : String
  deriving DecidableEq, Repr

/-- One hex digit (`0-9a-f`), as produced by `encode(..., 'hex')`. -/
def hexDigit (n : Nat) : Char :=
  if n < 10 then Char.ofNat (48 + n) else Char.ofNat (87 + n)

/-- `encode(bytes, 'hex')`: two lowercase hex digits per byte, high
nibble first. -/
def hexEncode (bytes : List (Fin 256)) : List Char :=
  bytes.foldr (fun b acc => hexDigit (b.val / 16) :: hexDigit (b.val % 16) :: acc) []

/-- The `rdf_on_new_change_set` trigger of migration 006: before insert
it stamps `last_modified := now()` and
`entity_tag := encode(gen_random_bytes(10), 'hex')`; `bytes` stands for
the random bytes drawn. -/
def rdf_on_new_change_set (now : Int) (bytes : List (Fin 256)) (id : Nat)
    (eff : Int) : StoredChangeSet :=
  ⟨id, eff, now, String.mk (hexEncode bytes)⟩

/-- Inserting a change-set row: the trigger fires and the processed row
is appended. -/
def insertChangeSet (table : List StoredChangeSet) (now : Int)
    (bytes : List (Fin 256)) (id : Nat) (eff : Int) : List StoredChangeSet :=
  table ++ [rdf_on_new_change_set now bytes id eff]

/-- `getChangeSet(id)`: the row with the given id, if any. -/
def getChangeSet (table : List StoredChangeSet) (id : Nat) :
    Option StoredChangeSet :=
  table.find? (fun c => decide (c.id = id))

/-- A lowercase hex character, as matched by `^[0-9a-f]{20}$`. -/
def isHexChar (c : Char) : Prop :=
  ('0' ≤ c ∧ c ≤ '9') ∨ ('a' ≤ c ∧ c ≤ 'f')

instance (c : Char) : Decidable (isHexChar c) := by
  unfold isHexChar
  exact inferInstance

/-- `hexDigit` of a nibble is a hex character. -/
theorem hexDigit_isHex (n : Nat) (h : n < 16) : isHexChar (hexDigit n) := by
  interval_cases n <;> decide

/-- A find over a prefix is unchanged by appending rows. -/
theorem find?_append_left {α : Type} (pr : α → Bool) (l l2 : List α) (a : α)
    (h : l.find? pr = some a) : (l ++ l2).find? pr = some a := by
  induction l with
  | nil => simp at h
  | cons b tl ih =>
    rw [List.cons_append]
    cases hb : pr b
    · rw [List.find?_cons_of_neg _ (by simp [hb])] at h
      rw [List.find?_cons_of_neg _ (by simp [hb])]
      exact ih h
    · rw [List.find?_cons_of_pos _ hb] at h
      rw [List.find?_cons_of_pos _ hb]
      exact h

/-- `hexEncode` yields two characters per byte. -/
theorem hexEncode_length (bytes : List (Fin 256)) :
    (hexEncode bytes).length = 2 * bytes.length := by
  induction bytes with
  | nil => rfl
  | cons b tl ih =>
    unfold hexEncode at ih ⊢
    simp only [List.foldr_cons, List.length_cons, ih]
    omega

/-- Every character `hexEncode` emits is a hex character. -/
theorem hexEncode_chars (bytes : List (Fin 256)) :
    ∀ c ∈ hexEncode bytes, isHexChar c := by
  induction bytes with
  | nil => intro c hc; simp [hexEncode] at hc
  | cons b tl ih =>
    intro c hc
    unfold hexEncode at hc
    simp only [List.foldr_cons, List.mem_cons] at hc
    rcases hc with hc | hc | hc
    · rw [hc]
      exact hexDigit_isHex _ (by omega)
    · rw [hc]
      refine hexDigit_isHex _ ?_
      have := b.isLt
      omega
    · exact ih c hc

/-- Claim C8: the insert trigger stamps `last_modified` with the current
time and `entity_tag` with the hex encoding of the ten random bytes, so
the tag is twenty characters of `[0-9a-f]`; and appending further rows
never changes what `getChangeSet` returns for an existing id, so the tag
is stable across reads. -/
theorem change_set_trigger_tag_and_stability
    (table : List StoredChangeSet) (now eff : Int) (bytes : List (Fin 256))
    (nid oid : Nat) (r : StoredChangeSet)
    (hlen : bytes.length = 10) (hget : getChangeSet table oid = some r) :
    (rdf_on_new_change_set now bytes nid eff).last_modified = now ∧
    (rdf_on_new_change_set now bytes nid eff).entity_tag.length = 20 ∧
    (∀ c ∈ (rdf_on_new_change_set now bytes nid eff).entity_tag.data,
      isHexChar c) ∧
    getChangeSet (insertChangeSet table now bytes nid eff) oid = some r := by
  refine ⟨rfl, ?_, ?_, ?_⟩
  · show (hexEncode bytes).length = 20
    rw [hexEncode_length, hlen]
  · show ∀ c ∈ hexEncode bytes, isHexChar c
    exact hexEncode_chars bytes
  · unfold insertChangeSet getChangeSet
    exact find?_append_left _ table _ r hget

/-- Witness for C8 on ten concrete bytes and a one-row table. -/
theorem change_set_trigger_tag_and_stability_witness :
    ((List.replicate 10 (0 : Fin 256)).length = 10) ∧
    getChangeSet [⟨1, 0, 0, "aa"⟩] 1 = some ⟨1, 0, 0, "aa"⟩ ∧
    (rdf_on_new_change_set 5 (List.replicate 10 (0 : Fin 256)) 2 3).entity_tag.length = 20 ∧
    getChangeSet
        (insertChangeSet [⟨1, 0, 0, "aa"⟩] 5 (List.replicate 10 (0 : Fin 256)) 2 3) 1 =
      some ⟨1, 0, 0, "aa"⟩ :=
  ⟨by decide, by decide,
   (change_set_trigger_tag_and_stability [⟨1, 0, 0, "aa"⟩] 5 3
      (List.replicate 10 (0 : Fin 256)) 2 1 ⟨1, 0, 0, "aa"⟩
      (by decide) (by decide)).2.1,
   (change_set_trigger_tag_and_stability [⟨1, 0, 0, "aa"⟩] 5 3
      (List.replicate 10 (0 : Fin 256)) 2 1 ⟨1, 0, 0, "aa"⟩
      (by decide) (by decide)).2.2.2⟩

/-! ## DSL validation (claim C6)

The DSL compiler is not part of the sources (only its tests are), so the
validator for the `add change set` instruction is modelled from the
spec: every required property missing, every array that is not an array
and every enum violation produces a deterministic
`/<instruction>/<index>[/path] must ...` message, and no SQL is emitted
for an invalid document. -/

/-- A YAML value as the DSL sees it. -/
inductive Yaml where
  | nullv : Yaml
  | str : String → Yaml
  | num : Int → Yaml
  | arr : List Yaml → Yaml
  | obj : List (String × Yaml) → Yaml

/-- Property lookup in a YAML mapping; a key mapped to `null` is
present (with value `nullv`), a missing key is absent. -/
def getProp (o : List (String × Yaml)) (k : String) : Option Yaml :=
  (o.find? (fun q => q.1 == k)).map (fun q => q.2)

/-- The `must have required property` message of the validator. -/
def reqMsg (ptr prop : String) : String :=
  ptr ++ " must have required property '" ++ prop ++ "'"

/-- The `must be an array` message of the validator. -/
def arrMsg (ptr : String) : String :=
  ptr ++ " must be an array"

/-- The enum-violation message of the validator. -/
def enumMsg (ptr vals : String) : String :=
  ptr ++ " must be equal to one of the allowed values: " ++ vals

/-- Whether a frame's `action` is one of the allowed enum values. -/
def validAction : Yaml → Bool
  | Yaml.str s => s == "POST" || s == "DELETE"
  | _ => false

/-- Modelled from the spec: structural validation of one frame of an
`add change set` instruction — `entity`, `version`, `action` and `data`
required, `action ∈ {POST, DELETE}`, `data` an array. `pfx` is the
instance pointer of the frame. -/
def validateFrame (pfx : String) (f : Yaml) : Except String Unit :=
  match f with
  | Yaml.obj o =>
    match getProp o "entity" with
    | none => Except.error (reqMsg pfx "entity")
    | some _ =>
      match getProp o "version" with
      | none => Except.error (reqMsg pfx "version")
      | some _ =>
        match getProp o "action" with
        | none => Except.error (reqMsg pfx "action")
        | some a =>
          if validAction a then
            match getProp o "data" with
            | none => Except.error (reqMsg pfx "data")
            | some (Yaml.arr _) => Except.ok ()
            | some _ => Except.error (arrMsg (pfx ++ "/data"))
          else Except.error (enumMsg (pfx ++ "/action") "POST, DELETE")
  | _ => Except.error (pfx ++ " must be object")

/-- Validation of the frame list of change set `ptr`, numbering frames
from `j`. -/
def validateFrames (ptr : String) (j : Nat) : List Yaml → Except String Unit
  | [] => Except.ok ()
  | f :: rest =>
    match validateFrame (ptr ++ "/frames/" ++ toString j) f with
    | Except.error e => Except.error e
    | Except.ok _ => validateFrames ptr (j + 1) rest

/-- Modelled from the spec: structural validation of the `i`-th change
set of an `add change set` instruction — `effective` and `frames`
required, `frames` an array whose members are valid frames. -/
def validateChangeSetItem (i : Nat) (c : Yaml) : Except String Unit :=
  match c with
  | Yaml.obj o =>
    match getProp o "effective" with
    | none => Except.error (reqMsg ("/add_change_set/" ++ toString i) "effective")
    | some _ =>
      match getProp o "frames" with
      | none => Except.error (reqMsg ("/add_change_set/" ++ toString i) "frames")
      | some (Yaml.arr fs) =>
        validateFrames ("/add_change_set/" ++ toString i) 0 fs
      | some _ =>
        Except.error (arrMsg ("/add_change_set/" ++ toString i ++ "/frames"))
  | _ => Except.error ("/add_change_set/" ++ toString i ++ " must be object")

/-- Validation of a whole `add change set` instruction, numbering the
change sets from `i`. -/
def validateChangeSetItems (i : Nat) : List Yaml → Except String Unit
  | [] => Except.ok ()
  | c :: rest =>
    match validateChangeSetItem i c with
    | Except.error e => Except.error e
    | Except.ok _ => validateChangeSetItems (i + 1) rest

/-- The database rows one frame compiles to: one `fby_data_frame` row
plus one side-table row per data element. -/
def rowsOfFrame (f : Yaml) : Nat :=
  match f with
  | Yaml.obj o =>
    match getProp o "data" with
    | some (Yaml.arr ds) => 2 * ds.length
    | _ => 0
  | _ => 0

/-- The database rows one change set compiles to: one `fby_change_set`
row plus the rows of its frames. -/
def rowsOfItem (c : Yaml) : Nat :=
  1 + (match c with
    | Yaml.obj o =>
      match getProp o "frames" with
      | some (Yaml.arr fs) => (fs.map rowsOfFrame).sum
      | _ => 0
    | _ => 0)

/-- Modelled from the spec: compiling an `add change set` instruction —
the document is validated structurally first, and only if validation
passes is SQL emitted (the result counts the rows that get written). -/
def applyAddChangeSet (items : List Yaml) : Except String Nat :=
  match validateChangeSetItems 0 items with
  | Except.error e => Except.error e
  | Except.ok _ => Except.ok ((items.map rowsOfItem).sum)

/-- The deterministic message shape the spec promises for validation
errors of the `add_change_set` instruction:
`/add_change_set/<index>[/path] must ...`. -/
def changeSetMsgForm (m : String) : Prop :=
  ∃ i path rest,
    m = "/add_change_set/" ++ toString (i : Nat) ++ path ++ " must " ++ rest

theorem str_congr_suffix (a : String) {x y : String} (h : x = y) :
    a ++ x = a ++ y := by rw [h]

/-- Every error of `validateFrame` is `pfx ++ <sub> ++ " must " ++ <rest>`. -/
theorem validateFrame_error_form (pfx : String) (f : Yaml) (m : String)
    (h : validateFrame pfx f = Except.error m) :
    ∃ sub rest, m = pfx ++ (sub ++ (" must " ++ rest)) := by
  unfold validateFrame at h
  split at h
  · split at h
    · refine ⟨"", "have required property 'entity'",
        ?_⟩
      have hm := (Except.error.inj h).symm
      rw [hm]
      unfold reqMsg
      simp only [String.append_assoc]
      exact str_congr_suffix pfx (by decide)
    · split at h
      · refine ⟨"", "have required property 'version'", ?_⟩
        have hm := (Except.error.inj h).symm
        rw [hm]
        unfold reqMsg
        simp only [String.append_assoc]
        exact str_congr_suffix pfx (by decide)
      · split at h
        · refine ⟨"", "have required property 'action'", ?_⟩
          have hm := (Except.error.inj h).symm
          rw [hm]
          unfold reqMsg
          simp only [String.append_assoc]
          exact str_congr_suffix pfx (by decide)
        · split at h
          · split at h
            · refine ⟨"", "have required property 'data'", ?_⟩
              have hm := (Except.error.inj h).symm
              rw [hm]
              unfold reqMsg
              simp only [String.append_assoc]
              exact str_congr_suffix pfx (by decide)
            · exact absurd h (by simp)
            · refine ⟨"/data", "be an array", ?_⟩
              have hm := (Except.error.inj h).symm
              rw [hm]
              unfold arrMsg
              simp only [String.append_assoc]
              exact str_congr_suffix pfx (by decide)
          · refine ⟨"/action",
              "be equal to one of the allowed values: POST, DELETE", ?_⟩
            have hm := (Except.error.inj h).symm
            rw [hm]
            unfold enumMsg
            simp only [String.append_assoc]
            exact str_congr_suffix pfx (by decide)
  · refine ⟨"", "be object", ?_⟩
    have hm := (Except.error.inj h).symm
    rw [hm]
    exact str_congr_suffix pfx (by decide)

/-- Every error of `validateFrames` points below `<ptr>/frames/<j>`. -/
theorem validateFrames_error_form (pI : String) (m : String) :
    ∀ (j : Nat) (fs : List Yaml), validateFrames pI j fs = Except.error m →
      ∃ jj sub rest,
        m = pI ++ ("/frames/" ++ (toString (jj : Nat) ++
          (sub ++ (" must " ++ rest)))) := by
  intro j fs
  induction fs generalizing j with
  | nil => intro h; exact absurd h (by simp [validateFrames])
  | cons f tl ih =>
    intro h
    unfold validateFrames at h
    split at h
    · rename_i e he
      obtain ⟨sub, rest, hm⟩ :=
        validateFrame_error_form _ f e he
      refine ⟨j, sub, rest, ?_⟩
      have hme := Except.error.inj h
      rw [← hme, hm]
      simp only [String.append_assoc]
    · exact ih (j + 1) h

/-- Every error of `validateChangeSetItem` has the promised form. -/
theorem validateChangeSetItem_error_form (i : Nat) (c : Yaml) (m : String)
    (h : validateChangeSetItem i c = Except.error m) : changeSetMsgForm m := by
  unfold validateChangeSetItem at h
  split at h
  · split at h
    · refine ⟨i, "", "have required property 'effective'", ?_⟩
      have hm := (Except.error.inj h).symm
      rw [hm]
      unfold reqMsg
      simp only [String.append_assoc]
      exact str_congr_suffix _ (str_congr_suffix _ (by decide))
    · split at h
      · refine ⟨i, "", "have required property 'frames'", ?_⟩
        have hm := (Except.error.inj h).symm
        rw [hm]
        unfold reqMsg
        simp only [String.append_assoc]
        exact str_congr_suffix _ (str_congr_suffix _ (by decide))
      · rename_i fs hfs
        obtain ⟨jj, sub, rest, hm⟩ :=
          validateFrames_error_form _ m 0 fs h
        refine ⟨i, "/frames/" ++ toString jj ++ sub, rest, ?_⟩
        rw [hm]
        simp only [String.append_assoc]
      · refine ⟨i, "/frames", "be an array", ?_⟩
        have hm := (Except.error.inj h).symm
        rw [hm]
        unfold arrMsg
        simp only [String.append_assoc]
        exact str_congr_suffix _ (str_congr_suffix _ (by decide))
  · refine ⟨i, "", "be object", ?_⟩
    have hm := (Except.error.inj h).symm
    rw [hm]
    simp only [String.append_assoc]
    exact str_congr_suffix _ (str_congr_suffix _ (by decide))

/-- Every error of `validateChangeSetItems` has the promised form. -/
theorem validateChangeSetItems_error_form (m : String) :
    ∀ (i : Nat) (items : List Yaml),
      validateChangeSetItems i items = Except.error m → changeSetMsgForm m := by
  intro i items
  induction items generalizing i with
  | nil => intro h; exact absurd h (by simp [validateChangeSetItems])
  | cons c tl ih =>
    intro h
    unfold validateChangeSetItems at h
    split at h
    · rename_i e he
      rw [← Except.error.inj h]
      exact validateChangeSetItem_error_form i c e he
    · exact ih (i + 1) h

/-- Claim C6: for every `add change set` document, validation runs
before any SQL is emitted — an invalid document makes the compiler
return the validation error and write no rows, and the error message has
the deterministic `/add_change_set/<index>[/path] must ...` form. -/
theorem dsl_validation_blocks_sql (items : List Yaml) (m : String)
    (h : validateChangeSetItems 0 items = Except.error m) :
    applyAddChangeSet items = Except.error m ∧ changeSetMsgForm m := by
  constructor
  · unfold applyAddChangeSet
    rw [h]
  · exact validateChangeSetItems_error_form m 0 items h

/-- Witness for C6: the seed scenario — a change set missing
`effective` fails with exactly the message the spec promises, and the
compiler emits nothing. -/
theorem dsl_validation_blocks_sql_witness :
    validateChangeSetItems 0 [Yaml.obj []] =
      Except.error "/add_change_set/0 must have required property 'effective'" ∧
    applyAddChangeSet [Yaml.obj []] =
      Except.error "/add_change_set/0 must have required property 'effective'" ∧
    changeSetMsgForm "/add_change_set/0 must have required property 'effective'" :=
  ⟨by rfl,
   (dsl_validation_blocks_sql [Yaml.obj []] _ (by rfl)).1,
   (dsl_validation_blocks_sql [Yaml.obj []] _ (by rfl)).2⟩
